import Mathlib

/-!
# Verification of the water-quality anomaly-detection toolkit

A shallow embedding of the repository's core data-handling code:

* `wqdab/utils/data_utils.py` — `prepare_time_series`, modelled over a
  `Frame` type that mirrors a pandas `DataFrame` (named, dtyped columns,
  an optional named index, rows as label/cell association lists; cell
  values cover missing markers, numbers, booleans, strings and
  timestamps on an abstract integer minute axis).
* `wqdab/visualization/anomaly_plots.py` — `get_anomaly_windows` over
  the time index and boolean event column of a prepared table, and the
  effect-level behaviour of `plot_anomaly_zoom`.
* `src/data/loaders.py` — `load_gecco2018_csv`, with the filesystem and
  the CSV reader as explicit parameters.
* `src/models/baselines.py` — `lof_baseline`, with the scikit-learn
  `fit_predict` as an explicit parameter.

External library primitives (`pd.to_datetime`, `pd.to_numeric`, Python
`str`) are modelled as total cell functions, restricted to the value
shapes that actually occur; all definitions are executable.
-/

/-- Column storage types, mirroring the pandas dtypes that the code
inspects (`select_dtypes(include=['float64', 'int64'])`, `dtype != bool`). -/
inductive DType
  | int64
  | float64
  | float32
  | int32
  | boolT
  | objectT
  | datetime64
deriving DecidableEq

/-- Holds exactly for the dtypes pandas regards as numeric
(`select_dtypes(include=['number'])`), over the dtypes modelled here. -/
def DType.isNumeric : DType → Bool
  | .int64 => true
  | .float64 => true
  | .float32 => true
  | .int32 => true
  | _ => false

/-- One cell of a table: a missing marker (NaN/NaT), a number, a boolean,
a string, or a timestamp on an abstract integer minute axis. -/
inductive Cell
  | na
  | num (q : Rat)
  | bool (b : Bool)
  | str (s : String)
  | time (t : Int)
deriving DecidableEq

/-- The cell is a missing marker. -/
def Cell.isNA : Cell → Bool
  | .na => true
  | _ => false

/-- The cell is a boolean value. -/
def Cell.isBool : Cell → Bool
  | .bool _ => true
  | _ => false

/-- Rank used to order cells of distinct kinds; within a kind the value
order is used. Missing markers sort last, as pandas sorts NaN last. -/
def Cell.rank : Cell → Nat
  | .bool _ => 0
  | .num _ => 1
  | .time _ => 2
  | .str _ => 3
  | .na => 4

/-- Total boolean comparison on cells: value order within a kind,
rank order across kinds. -/
def cellLe (a b : Cell) : Bool :=
  match a, b with
  | .bool x, .bool y => !x || y
  | .num p, .num q => decide (p ≤ q)
  | .time s, .time t => decide (s ≤ t)
  | .str s, .str t => decide (s ≤ t)
  | _, _ => decide (a.rank ≤ b.rank)

/-- Association-list lookup by string key (first matching entry). -/
def lookupKey {β : Type} : List (String × β) → String → Option β
  | [], _ => none
  | p :: rest, c => if p.1 = c then some p.2 else lookupKey rest c

/-- Remove the first entry with the given key, if any. -/
def eraseKey {β : Type} : List (String × β) → String → List (String × β)
  | [], _ => []
  | p :: rest, c => if p.1 = c then rest else p :: eraseKey rest c

/-- Apply `g` to the value of every entry with the given key. -/
def mapKey {β : Type} (l : List (String × β)) (c : String) (g : β → β) :
    List (String × β) :=
  l.map (fun p => if p.1 = c then (p.1, g p.2) else p)

/-- Minimum of a list of integers (`Index.min()`); `0` on the empty list,
which the code never hits because it is only taken when an event exists. -/
def listMin : List Int → Int
  | [] => 0
  | x :: xs => xs.foldl min x

/-- Maximum of a list of integers (`Index.max()`). -/
def listMax : List Int → Int
  | [] => 0
  | x :: xs => xs.foldl max x

/-!
## Anomaly window extraction (`get_anomaly_windows`)

The prepared table is represented by its time index (`index`, integer
minutes, aligned positionally with the rows) and its boolean event
column (`events`). `pd.Timedelta(minutes=margin_minutes)` is the integer
`margin_minutes` on the same axis.
-/

/-- The previous row's flag, `events.shift(1, fill_value=False)`:
`False` for the first row. -/
def shiftFillFalse : List Bool → List Bool
  | [] => []
  | x :: rest => false :: (x :: rest).dropLast

/-- The next row's flag, `events.shift(-1, fill_value=False)`:
`False` for the last row. -/
def shiftBackFillFalse : List Bool → List Bool
  | [] => []
  | _ :: rest => rest ++ [false]

/-- Run-start mask: `events & ~events.shift(1, fill_value=False)`. -/
def eventStartsMask (events : List Bool) : List Bool :=
  List.zipWith (fun e p => e && !p) events (shiftFillFalse events)

/-- Run-end mask: `events & ~events.shift(-1, fill_value=False)`. -/
def eventEndsMask (events : List Bool) : List Bool :=
  List.zipWith (fun e n => e && !n) events (shiftBackFillFalse events)

/-- Index values selected by a mask: `df_ts.index[mask].tolist()`. -/
def maskIndex (index : List Int) (mask : List Bool) : List Int :=
  ((index.zip mask).filter (fun p => p.2)).map Prod.fst

/-- Model of `get_anomaly_windows` from `wqdab/visualization/anomaly_plots.py`:
margin-padded windows `(win_start, win_end, anom_start, anom_end)`
around each maximal contiguous run of `True` event flags. -/
def get_anomaly_windows (index : List Int) (events : List Bool)
    (margin_minutes : Int) : List (Int × Int × Int × Int) :=
  let start_times := maskIndex index (eventStartsMask events)
  let end_times := maskIndex index (eventEndsMask events)
  if start_times.length = 0 then []
  else
    let margin := margin_minutes
    (start_times.zip end_times).map (fun p =>
      (max (listMin index) (p.1 - margin), min (listMax index) (p.2 + margin),
        p.1, p.2))

/-- Count of maximal contiguous `True` runs, written from the spec's
notion directly: a run begins wherever the flag is `True` and the
previous flag (`prev`, `False` at the sequence start) is not. -/
def countRunsAux : Bool → List Bool → Nat
  | _, [] => 0
  | prev, b :: rest => (if b && !prev then 1 else 0) + countRunsAux b rest

/-- Number of maximal contiguous `True` runs of a boolean sequence. -/
def countRuns (l : List Bool) : Nat := countRunsAux false l

/-- Recursive form of the run-start mask, carrying the previous flag. -/
def startsMaskAux : Bool → List Bool → List Bool
  | _, [] => []
  | prev, e :: rest => (e && !prev) :: startsMaskAux e rest

/-- Recursive form of the run-end mask (look-ahead to the next flag). -/
def endsMaskAux : List Bool → List Bool
  | [] => []
  | [e] => [e]
  | e :: r :: rs => (e && !r) :: endsMaskAux (r :: rs)

/-!
## Time-series preparation (`prepare_time_series`)

A pandas `DataFrame` is modelled as a `Frame`: a dtyped header, an
optional named index, and rows carrying an index cell plus a
label-to-cell association list aligned with the header. External pandas
primitives (`pd.to_datetime`, `pd.to_numeric`, `astype(str)`) are
modelled as total cell functions over the value shapes occurring here;
unparseable values become missing markers exactly as
`errors="coerce"` does. `sort_values`/`sort_index` are modelled with a
stable comparison sort (pandas does not fix a tie order; none of the
statements below depends on one).
-/

/-- One table row: its index value and its labelled cells. -/
def Row : Type := List (String × Cell)

instance : DecidableEq Row :=
  inferInstanceAs (DecidableEq (List (String × Cell)))

/-- Value of the labelled cell `c` in a row; missing label reads as a
missing marker (rows of a real frame always carry every column label). -/
def rowGet (row : Row) (c : String) : Cell := (lookupKey row c).getD Cell.na

/-- Whether the row carries the column label `c`. -/
def rowHas (row : Row) (c : String) : Bool := (lookupKey row c).isSome

/-- Shallow model of a pandas `DataFrame`. -/
structure Frame where
  header : List (String × DType)
  indexName : Option String
  indexDtype : DType
  rows : List (Cell × Row)
deriving DecidableEq

/-- The column names, `df.columns`. -/
def Frame.colNames (f : Frame) : List String := f.header.map Prod.fst

/-- Membership test `c in df.columns`. -/
def Frame.hasCol (f : Frame) (c : String) : Bool :=
  (lookupKey f.header c).isSome

/-- The dtype `df[c].dtype` of the first matching column. -/
def Frame.dtypeOf? (f : Frame) (c : String) : Option DType :=
  lookupKey f.header c

/-- The cells of column `c` (empty when the frame lacks the column). -/
def Frame.colCells (f : Frame) (c : String) : List Cell :=
  if f.hasCol c then f.rows.map (fun r => rowGet r.2 c) else []

/-- Column update `df[c] = df[c].map g` with the resulting dtype `d`:
in-place update of an existing column (the code always guards this with
a membership test, so no column is ever created). -/
def Frame.applyCol (f : Frame) (c : String) (g : Cell → Cell) (d : DType) :
    Frame :=
  { f with
    header := mapKey f.header c (fun _ => d),
    rows := f.rows.map (fun r => (r.1, mapKey r.2 c g)) }

/-- Model of `pd.to_datetime(x, errors="coerce")` on one cell, over the abstract
integer time axis: timestamps pass through, integer values denote the
corresponding instant, anything else becomes a missing marker. -/
def toDatetimeCell : Cell → Cell
  | .time t => .time t
  | .num q => if q.den = 1 then .time q.num else .na
  | _ => .na

/-- Parse an optionally signed decimal integer literal, else `none`. -/
def parseIntStr? (s : String) : Option Int :=
  match s.data with
  | [] => none
  | '-' :: rest =>
    if rest ≠ [] ∧ rest.all Char.isDigit then
      some (-(rest.foldl (fun n ch => n * 10 + (ch.toNat - 48)) 0 : Int))
    else none
  | l =>
    if l.all Char.isDigit then
      some ((l.foldl (fun n ch => n * 10 + (ch.toNat - 48)) 0 : Int))
    else none

/-- Model of `pd.to_numeric(x, errors="coerce")` on one cell: numbers pass
through, booleans become 0/1, timestamps their axis value, strings are
parsed as integer literals, anything else a missing marker. -/
def toNumericCell : Cell → Cell
  | .num q => .num q
  | .bool b => .num (if b then 1 else 0)
  | .time t => .num t
  | .str s =>
    match parseIntStr? s with
    | some n => .num n
    | none => .na
  | .na => .na

/-- Result dtype of `pd.to_numeric` over a column: `int64` when every
value is an integer, `float64` otherwise (missing markers force floats). -/
def numericDtypeOf (cells : List Cell) : DType :=
  if cells.all (fun c => match c with | .num q => q.den == 1 | _ => false)
  then .int64 else .float64

/-- Coercion `df[c] = pd.to_numeric(df[c], errors="coerce")` for an existing
column, with the resulting dtype. -/
def Frame.coerceNumericCol (f : Frame) (c : String) : Frame :=
  { f with
    header := mapKey f.header c (fun _ =>
      numericDtypeOf (f.rows.map (fun r => toNumericCell (rowGet r.2 c)))),
    rows := f.rows.map (fun r => (r.1, mapKey r.2 c toNumericCell)) }

/-- Python `str()` of one cell of a column with dtype `d`, to the extent
the truthy-token membership test below can observe it: booleans render
as `True`/`False`, missing markers as `nan`, integer values as decimal
literals (floats keep a trailing `.0`), non-integer numerics and
timestamps render with characters that never match a truthy token. -/
def Cell.pyStr (d : DType) : Cell → String
  | .na => "nan"
  | .bool b => if b then "True" else "False"
  | .str s => s
  | .time _ => "Timestamp(...)"
  | .num q =>
    if q.den = 1 then
      let base :=
        if q.num < 0 then "-" ++ Nat.repr q.num.natAbs
        else Nat.repr q.num.natAbs
      if d = .float64 || d = .float32 then base ++ ".0" else base
    else "0.5"

/-- The truthy tokens of the event normalisation
(`["true", "1", "t", "yes", "yes"]`, duplicate as in the source). -/
def truthyTokens : List String := ["true", "1", "t", "yes", "yes"]

/-- ASCII lowering of one character (`str.lower()`; the truthy tokens
are pure ASCII, so this is all the membership test can observe). -/
def lowerChar (c : Char) : Char :=
  if 65 ≤ c.toNat ∧ c.toNat ≤ 90 then Char.ofNat (c.toNat + 32) else c

/-- ASCII lowering of a string (`str.lower()`). -/
def lowerStr (s : String) : String := String.mk (s.data.map lowerChar)

/-- The test `df[event_col].astype(str).str.lower().isin(truthyTokens)` on one
cell of a column with dtype `d`. -/
def eventToBool (d : DType) (c : Cell) : Cell :=
  Cell.bool (truthyTokens.contains (lowerStr (Cell.pyStr d c)))

/-- Model of `df.dropna(subset=subset)`: error when a subset label is missing
from the columns (pandas raises `KeyError`), else keep exactly the rows
with no missing marker in any subset column. -/
def Frame.dropna (f : Frame) (subset : List String) : Except String Frame :=
  let missing := subset.filter (fun c => !f.hasCol c)
  if missing.isEmpty then
    .ok { f with
      rows := f.rows.filter (fun r =>
        subset.all (fun c => !(rowGet r.2 c).isNA)) }
  else .error ("KeyError: " ++ String.intercalate ", " missing)

/-- Row comparison by a cell-valued key. -/
def keyLe (k : Cell × Row → Cell) (a b : Cell × Row) : Prop :=
  cellLe (k a) (k b) = true

instance (k : Cell × Row → Cell) : DecidableRel (keyLe k) :=
  fun a b => instDecidableEqBool (cellLe (k a) (k b)) true

/-- Model of `df.sort_values(c)`: stable sort of the rows by the cells of
column `c`. -/
def Frame.sortValues (f : Frame) (c : String) : Frame :=
  { f with rows := List.insertionSort (keyLe (fun r => rowGet r.2 c)) f.rows }

/-- Model of `df.reset_index(drop=True)`: drop the index, re-key rows 0,1,2,…. -/
def Frame.resetIndex (f : Frame) : Frame :=
  { f with
    indexName := none,
    indexDtype := .int64,
    rows := (f.rows.map Prod.snd).enum.map
      (fun p => (Cell.num (p.1 : Rat), p.2)) }

/-- Model of `df.set_index(c)`: move column `c` (first occurrence) into the
index. -/
def Frame.setIndex (f : Frame) (c : String) : Frame :=
  { header := eraseKey f.header c,
    indexName := some c,
    indexDtype := (lookupKey f.header c).getD .objectT,
    rows := f.rows.map (fun r => (rowGet r.2 c, eraseKey r.2 c)) }

/-- Model of `df.sort_index()`: stable sort of the rows by index value. -/
def Frame.sortIndex (f : Frame) : Frame :=
  { f with rows := List.insertionSort (keyLe Prod.fst) f.rows }

/-- The numeric-column inference of `prepare_time_series`:
`df.select_dtypes(include=['float64', 'int64']).columns.tolist()`, with
the event column removed when present. -/
def inferredNumericCols (f : Frame) (event_col : String) : List String :=
  let numeric := (f.header.filter
    (fun p => p.2 == DType.float64 || p.2 == DType.int64)).map Prod.fst
  if numeric.contains event_col then numeric.erase event_col else numeric

/-- Step 1 of `prepare_time_series`: parse the time column when present. -/
def prepStep1 (df : Frame) (time_col : String) : Frame :=
  if df.hasCol time_col then df.applyCol time_col toDatetimeCell .datetime64
  else df

/-- The numeric columns `prepare_time_series` works with: the caller's
list when supplied, else the inference over the time-parsed frame. -/
def effectiveNumericCols (df : Frame) (time_col event_col : String)
    (numeric_cols : Option (List String)) : List String :=
  match numeric_cols with
  | some cs => cs
  | none => inferredNumericCols (prepStep1 df time_col) event_col

/-- Step 2: coerce each selected numeric column that exists. -/
def prepStep2 (df : Frame) (ncols : List String) : Frame :=
  ncols.foldl (fun d c => if d.hasCol c then d.coerceNumericCol c else d) df

/-- Step 3: normalise the event column to boolean when present and not
already boolean. -/
def prepStep3 (df : Frame) (event_col : String) : Frame :=
  if df.hasCol event_col then
    if df.dtypeOf? event_col = some DType.boolT then df
    else df.applyCol event_col
      (eventToBool ((df.dtypeOf? event_col).getD DType.objectT)) DType.boolT
  else df

/-- Model of `prepare_time_series` from `wqdab/utils/data_utils.py`: parse time,
select and coerce numeric columns, normalise the event flag, drop rows
with missing time or sensor values, sort by time, set the time index.
The `KeyError` pandas raises from `dropna` on a missing subset label is
the error case. -/
def prepare_time_series (df : Frame) (time_col event_col : String)
    (numeric_cols : Option (List String)) : Except String Frame :=
  match (prepStep3 (prepStep2 (prepStep1 df time_col)
      (effectiveNumericCols df time_col event_col numeric_cols))
      event_col).dropna
      (time_col :: effectiveNumericCols df time_col event_col numeric_cols) with
  | .error e => .error e
  | .ok dfc => .ok (((dfc.sortValues time_col).resetIndex.setIndex
      time_col).sortIndex)

/-- A one-row frame with a time column and one sensor column. -/
def exampleBasicFrame : Frame :=
  { header := [("Time", .datetime64), ("A", .int64)],
    indexName := none, indexDtype := .int64,
    rows := [(Cell.num 0, [("Time", Cell.time 1), ("A", Cell.num 5)])] }

/-- The table `prepare_time_series` returns on `exampleBasicFrame`. -/
def exampleBasicPrepared : Frame :=
  { header := [("A", .int64)],
    indexName := some "Time", indexDtype := .datetime64,
    rows := [(Cell.time 1, [("A", Cell.num 5)])] }

/-- A frame with two rows sharing the same timestamp. -/
def exampleDupFrame : Frame :=
  { header := [("Time", .datetime64), ("A", .int64)],
    indexName := none, indexDtype := .int64,
    rows := [(Cell.num 0, [("Time", Cell.time 5), ("A", Cell.num 1)]),
             (Cell.num 1, [("Time", Cell.time 5), ("A", Cell.num 2)])] }

/-- The table `prepare_time_series` returns on `exampleDupFrame`. -/
def exampleDupPrepared : Frame :=
  { header := [("A", .int64)],
    indexName := some "Time", indexDtype := .datetime64,
    rows := [(Cell.time 5, [("A", Cell.num 1)]),
             (Cell.time 5, [("A", Cell.num 2)])] }

/-- A frame with a `float32` sensor column whose only value is missing. -/
def exampleFloat32Frame : Frame :=
  { header := [("Time", .datetime64), ("B", .float32)],
    indexName := none, indexDtype := .int64,
    rows := [(Cell.num 0, [("Time", Cell.time 1), ("B", Cell.na)])] }

/-- A frame for the C7 witness: one `float64`, one `int64` event, one
object column. -/
def exampleInferFrame : Frame :=
  { header := [("A", .float64), ("EVENT", .int64), ("S", .objectT)],
    indexName := none, indexDtype := .int64, rows := [] }

/-- A frame exercising every preparation step: a missing sensor value,
a missing event value, string event flags, unsorted times. -/
def exampleEventFrame : Frame :=
  { header := [("Time", .datetime64), ("A", .float64), ("EVENT", .objectT)],
    indexName := none, indexDtype := .int64,
    rows := [(Cell.num 0, [("Time", Cell.time 3), ("A", Cell.num 2),
               ("EVENT", Cell.str "True")]),
             (Cell.num 1, [("Time", Cell.time 1), ("A", Cell.na),
               ("EVENT", Cell.str "0")]),
             (Cell.num 2, [("Time", Cell.time 2), ("A", Cell.num 7),
               ("EVENT", Cell.na)])] }

/-- The table `prepare_time_series` returns on `exampleEventFrame`. -/
def exampleEventPrepared : Frame :=
  { header := [("A", .float64), ("EVENT", .boolT)],
    indexName := some "Time", indexDtype := .datetime64,
    rows := [(Cell.time 2, [("A", Cell.num 7), ("EVENT", Cell.bool false)]),
             (Cell.time 3, [("A", Cell.num 2), ("EVENT", Cell.bool true)])] }

/-!
## Dataset loader (`load_gecco2018_csv`), zoom renderer effects, and the
LOF baseline

The filesystem (`Path.exists`), the CSV reader (`pd.read_csv`) and the
scikit-learn `LocalOutlierFactor.fit_predict` are external effects and
libraries; they enter the model as explicit function parameters. Paths
are strings relative to the project root.
-/

/-- The constant `RAW_DATA_DIR` from `src/utils/paths.py`, relative to the project
root. -/
def RAW_DATA_DIR : String := "data/raw"

/-- Path resolution of `load_gecco2018_csv`: the caller's path if given,
else the fixed default file under the raw-data directory. -/
def resolveGeccoPath (path : Option String) : String :=
  match path with
  | some p => p
  | none => RAW_DATA_DIR ++ "/1_gecco2018_water_quality.csv"

/-- The `FileNotFoundError` message, naming the resolved path. -/
def geccoNotFoundMsg (p : String) : String :=
  "GECCO2018 CSV not found at " ++ p ++ ". Copy it into data/raw/"

/-- Model of `load_gecco2018_csv` from `src/data/loaders.py`: resolve the path,
fail with a not-found error when no file exists there, else read the
CSV. -/
def load_gecco2018_csv (exists_fs : String → Bool)
    (read_csv : String → Frame) (path : Option String) :
    Except String Frame :=
  if exists_fs (resolveGeccoPath path) then
    .ok (read_csv (resolveGeccoPath path))
  else .error (geccoNotFoundMsg (resolveGeccoPath path))

/-- Observable effects of one `plot_anomaly_zoom` call: whether the
empty-selection warning was printed, whether a figure was created,
which files were written, whether the figure was shown. -/
structure PlotEffects where
  warned : Bool
  figureCreated : Bool
  savedFiles : List String
  shown : Bool
deriving DecidableEq

/-- The window test `(df.index >= start) & (df.index <= end)` on one index cell. -/
def cellInTimeRange (c : Cell) (s e : Int) : Bool :=
  match c with
  | .time t => decide (s ≤ t) && decide (t ≤ e)
  | _ => false

/-- Effect-level model of `plot_anomaly_zoom` from
`wqdab/visualization/anomaly_plots.py`: select the rows whose time lies
in `[start_time, end_time]` inclusive; on an empty selection print the
warning and return with no figure and no file; otherwise build the
figure, save it when `save_path` is given, and show or close it.
(The subplot contents — sensors, sizes — do not alter these effects and
are not tracked.) -/
def plot_anomaly_zoom (df : Frame) (start_time end_time : Int)
    (save_path : Option String) (showFig : Bool) : PlotEffects :=
  if (df.rows.filter
      (fun r => cellInTimeRange r.1 start_time end_time)).length = 0 then
    { warned := true, figureCreated := false, savedFiles := [],
      shown := false }
  else
    { warned := false, figureCreated := true,
      savedFiles := match save_path with | some p => [p] | none => [],
      shown := showFig }

/-- Model of `lof_baseline` from `src/models/baselines.py`:
`scores = -lof.fit_predict(X)` followed by `astype(float)`. The native
`fit_predict` (returning `+1`/`-1` labels) is a parameter. -/
def lof_baseline (fit_predict : List (List Rat) → List Int)
    (X : List (List Rat)) : List Rat :=
  ((fit_predict X).map (fun v => -v)).map (fun (v : Int) => (v : Rat))

theorem cellLe_total (a b : Cell) : cellLe a b || cellLe b a := by
  cases a <;> cases b <;> simp [cellLe, Cell.rank] <;>
    first
      | omega
      | exact le_total _ _
      | (rename_i x y; cases x <;> cases y <;> simp)

theorem cellLe_trans (a b c : Cell) :
    cellLe a b → cellLe b c → cellLe a c := by
  cases a <;> cases b <;> cases c <;> simp [cellLe, Cell.rank] <;>
    first
      | omega
      | exact fun h1 h2 => le_trans h1 h2
      | (rename_i x y z; cases x <;> cases y <;> cases z <;> simp)

theorem lookupKey_cons {β : Type} (p : String × β) (l : List (String × β))
    (c : String) :
    lookupKey (p :: l) c = if p.1 = c then some p.2 else lookupKey l c := rfl

theorem eraseKey_cons {β : Type} (p : String × β) (l : List (String × β))
    (c : String) :
    eraseKey (p :: l) c = if p.1 = c then l else p :: eraseKey l c := rfl

theorem mapKey_cons {β : Type} (p : String × β) (l : List (String × β))
    (c : String) (g : β → β) :
    mapKey (p :: l) c g =
      (if p.1 = c then (p.1, g p.2) else p) :: mapKey l c g := by
  unfold mapKey
  rw [List.map_cons]

theorem lookupKey_mapKey_ne {β : Type} (l : List (String × β)) (c c' : String)
    (g : β → β) (h : c' ≠ c) : lookupKey (mapKey l c g) c' = lookupKey l c' := by
  induction l with
  | nil => rfl
  | cons p rest ih =>
    rw [mapKey_cons]
    by_cases hpc : p.1 = c
    · have hpc' : p.1 ≠ c' := fun hh => h (hh ▸ hpc)
      rw [if_pos hpc, lookupKey_cons, lookupKey_cons, if_neg hpc', if_neg hpc']
      exact ih
    · rw [if_neg hpc, lookupKey_cons, lookupKey_cons]
      by_cases hp' : p.1 = c'
      · rw [if_pos hp', if_pos hp']
      · rw [if_neg hp', if_neg hp']
        exact ih

theorem lookupKey_mapKey_eq {β : Type} (l : List (String × β)) (c : String)
    (g : β → β) : lookupKey (mapKey l c g) c = (lookupKey l c).map g := by
  induction l with
  | nil => rfl
  | cons p rest ih =>
    rw [mapKey_cons]
    by_cases hpc : p.1 = c
    · rw [if_pos hpc, lookupKey_cons, lookupKey_cons, if_pos hpc, if_pos hpc]
      rfl
    · rw [if_neg hpc, lookupKey_cons, lookupKey_cons, if_neg hpc, if_neg hpc]
      exact ih

theorem lookupKey_eraseKey_ne {β : Type} (l : List (String × β)) (c c' : String)
    (h : c' ≠ c) : lookupKey (eraseKey l c) c' = lookupKey l c' := by
  induction l with
  | nil => rfl
  | cons p rest ih =>
    rw [eraseKey_cons]
    by_cases hpc : p.1 = c
    · have hpc' : p.1 ≠ c' := fun hh => h (hh ▸ hpc)
      rw [if_pos hpc, lookupKey_cons, if_neg hpc']
    · rw [if_neg hpc, lookupKey_cons, lookupKey_cons]
      by_cases hp' : p.1 = c'
      · rw [if_pos hp', if_pos hp']
      · rw [if_neg hp', if_neg hp']
        exact ih

theorem mapKey_keys {β : Type} (l : List (String × β)) (c : String) (g : β → β) :
    (mapKey l c g).map Prod.fst = l.map Prod.fst := by
  induction l with
  | nil => rfl
  | cons p rest ih =>
    rw [mapKey_cons, List.map_cons, List.map_cons, ih]
    by_cases hpc : p.1 = c
    · rw [if_pos hpc]
    · rw [if_neg hpc]

theorem lookupKey_eq_none_of_not_mem_keys {β : Type} (l : List (String × β))
    (c : String) (h : c ∉ l.map Prod.fst) : lookupKey l c = none := by
  induction l with
  | nil => rfl
  | cons p rest ih =>
    rw [List.map_cons, List.mem_cons] at h
    push_neg at h
    rw [lookupKey_cons, if_neg (fun hh => h.1 hh.symm)]
    exact ih h.2

theorem lookupKey_eraseKey_self {β : Type} (l : List (String × β)) (c : String)
    (hnd : (l.map Prod.fst).Nodup) : lookupKey (eraseKey l c) c = none := by
  induction l with
  | nil => rfl
  | cons p rest ih =>
    rw [List.map_cons, List.nodup_cons] at hnd
    rw [eraseKey_cons]
    by_cases hpc : p.1 = c
    · rw [if_pos hpc]
      exact lookupKey_eq_none_of_not_mem_keys rest c (hpc ▸ hnd.1)
    · rw [if_neg hpc, lookupKey_cons, if_neg hpc]
      exact ih hnd.2

theorem eraseKey_keys_of_lookup_none {β : Type} (l : List (String × β))
    (c : String) (h : lookupKey l c = none) : eraseKey l c = l := by
  induction l with
  | nil => rfl
  | cons p rest ih =>
    rw [lookupKey_cons] at h
    by_cases hpc : p.1 = c
    · rw [if_pos hpc] at h
      exact absurd h (by simp)
    · rw [if_neg hpc] at h
      rw [eraseKey_cons, if_neg hpc, ih h]

theorem foldl_min_le (l : List Int) (a : Int) :
    l.foldl min a ≤ a ∧ ∀ x ∈ l, l.foldl min a ≤ x := by
  induction l generalizing a with
  | nil => simp
  | cons b rest ih =>
    have h := ih (min a b)
    refine ⟨le_trans h.1 (min_le_left a b), ?_⟩
    intro x hx
    rcases List.mem_cons.1 hx with rfl | hx
    · exact le_trans h.1 (min_le_right a x)
    · exact h.2 x hx

theorem le_foldl_max (l : List Int) (a : Int) :
    a ≤ l.foldl max a ∧ ∀ x ∈ l, x ≤ l.foldl max a := by
  induction l generalizing a with
  | nil => simp
  | cons b rest ih =>
    have h := ih (max a b)
    refine ⟨le_trans (le_max_left a b) h.1, ?_⟩
    intro x hx
    rcases List.mem_cons.1 hx with rfl | hx
    · exact le_trans (le_max_right a x) h.1
    · exact h.2 x hx

theorem listMin_le_of_mem {l : List Int} {x : Int} (h : x ∈ l) : listMin l ≤ x := by
  cases l with
  | nil => simp at h
  | cons a rest =>
    rcases List.mem_cons.1 h with rfl | hx
    · exact (foldl_min_le rest x).1
    · exact (foldl_min_le rest a).2 x hx

theorem le_listMax_of_mem {l : List Int} {x : Int} (h : x ∈ l) : x ≤ listMax l := by
  cases l with
  | nil => simp at h
  | cons a rest =>
    rcases List.mem_cons.1 h with rfl | hx
    · exact (le_foldl_max rest x).1
    · exact (le_foldl_max rest a).2 x hx

theorem eventStartsMask_aux (l : List Bool) : ∀ prev : Bool,
    List.zipWith (fun e p => e && !p) l (prev :: l.dropLast) =
      startsMaskAux prev l := by
  induction l with
  | nil => intro prev; rfl
  | cons e rest ih =>
    intro prev
    cases rest with
    | nil => simp [startsMaskAux]
    | cons r rs =>
      rw [List.dropLast_cons₂, List.zipWith_cons_cons, startsMaskAux]
      rw [ih e]

theorem eventStartsMask_eq (l : List Bool) :
    eventStartsMask l = startsMaskAux false l := by
  cases l with
  | nil => rfl
  | cons e rest =>
    unfold eventStartsMask shiftFillFalse
    exact eventStartsMask_aux (e :: rest) false

theorem eventEndsMask_eq (l : List Bool) : eventEndsMask l = endsMaskAux l := by
  induction l with
  | nil => rfl
  | cons e rest ih =>
    cases rest with
    | nil => simp [eventEndsMask, shiftBackFillFalse, endsMaskAux]
    | cons r rs =>
      simp only [eventEndsMask, shiftBackFillFalse]
      rw [List.cons_append, List.zipWith_cons_cons, endsMaskAux]
      simp only [eventEndsMask, shiftBackFillFalse] at ih
      rw [ih]

theorem maskIndex_nil_left (mask : List Bool) : maskIndex [] mask = [] := by
  cases mask <;> rfl

theorem maskIndex_nil_right (ts : List Int) : maskIndex ts [] = [] := by
  cases ts <;> rfl

theorem maskIndex_cons (t : Int) (ts : List Int) (b : Bool) (bs : List Bool) :
    maskIndex (t :: ts) (b :: bs) =
      if b then t :: maskIndex ts bs else maskIndex ts bs := by
  unfold maskIndex
  rw [List.zip_cons_cons, List.filter_cons]
  cases b <;> simp

theorem maskIndex_sublist (ts : List Int) (mask : List Bool) :
    (maskIndex ts mask).Sublist ts := by
  induction ts generalizing mask with
  | nil => rw [maskIndex_nil_left]
  | cons t ts' ih =>
    cases mask with
    | nil => rw [maskIndex_nil_right]; exact List.nil_sublist _
    | cons b bs =>
      rw [maskIndex_cons]
      cases b with
      | true => simpa using List.Sublist.cons₂ t (ih bs)
      | false => simpa using List.Sublist.cons t (ih bs)

theorem maskIndex_startsMask_length (es : List Bool) : ∀ (ts : List Int)
    (prev : Bool), ts.length = es.length →
    (maskIndex ts (startsMaskAux prev es)).length = countRunsAux prev es := by
  induction es with
  | nil =>
    intro ts prev h
    rw [startsMaskAux, maskIndex_nil_right, countRunsAux]
    rfl
  | cons e rest ih =>
    intro ts prev h
    cases ts with
    | nil => simp at h
    | cons t ts' =>
      rw [startsMaskAux, maskIndex_cons, countRunsAux]
      simp only [List.length_cons, Nat.succ.injEq] at h
      cases hb : e && !prev with
      | true =>
        simp [ih ts' e h]
        omega
      | false => simp [ih ts' e h]

theorem maskIndex_endsMask_length (es : List Bool) : ∀ (ts : List Int)
    (prev : Bool), ts.length = es.length →
    (maskIndex ts (endsMaskAux es)).length =
      countRunsAux prev es + (if prev && es.head?.getD false then 1 else 0) := by
  induction es with
  | nil =>
    intro ts prev h
    rw [endsMaskAux, maskIndex_nil_right, countRunsAux]
    simp
  | cons e rest ih =>
    intro ts prev h
    cases ts with
    | nil => simp at h
    | cons t ts' =>
      simp only [List.length_cons, Nat.succ.injEq] at h
      cases rest with
      | nil =>
        cases ts' with
        | nil =>
          rw [endsMaskAux, maskIndex_cons, countRunsAux, countRunsAux]
          cases e <;> cases prev <;> simp [maskIndex_nil_right]
        | cons => simp at h
      | cons r rs =>
        rw [endsMaskAux, maskIndex_cons, countRunsAux]
        have := ih ts' e h
        cases e <;> cases prev <;> cases r <;>
          simp_all [List.head?] <;> omega

theorem starts_ends_pairing (es : List Bool) : ∀ (ts : List Int) (prev : Bool),
    ts.length = es.length → List.Chain' (· ≤ ·) ts →
    (((prev && es.head?.getD false) = true →
      ∃ e E, maskIndex ts (endsMaskAux es) = e :: E ∧
        List.Forall₂ (· ≤ ·) (maskIndex ts (startsMaskAux prev es)) E ∧
        ∀ t ∈ ts.head?, t ≤ e) ∧
    ((prev && es.head?.getD false) = false →
      List.Forall₂ (· ≤ ·) (maskIndex ts (startsMaskAux prev es))
        (maskIndex ts (endsMaskAux es)))) := by
  induction es with
  | nil =>
    intro ts prev hlen hch
    constructor
    · intro h
      simp at h
    · intro _
      simp only [startsMaskAux, endsMaskAux, maskIndex_nil_right]
      exact List.Forall₂.nil
  | cons e rest ih =>
    intro ts prev hlen hch
    cases ts with
    | nil => simp at hlen
    | cons t ts' =>
      simp only [List.length_cons, Nat.succ.injEq] at hlen
      cases rest with
      | nil =>
        cases ts' with
        | cons t'' tss => simp at hlen
        | nil =>
          cases e <;> cases prev <;> constructor <;> intro hcond <;>
            simp_all [startsMaskAux, endsMaskAux, maskIndex_cons,
              maskIndex_nil_right] <;>
            exact ⟨t, [], ⟨rfl, rfl⟩, rfl, le_refl t⟩
      | cons r rs =>
        cases ts' with
        | nil => simp at hlen
        | cons t' ts'' =>
          rw [List.chain'_cons] at hch
          obtain ⟨htt', hch'⟩ := hch
          have IH := ih (t' :: ts'') e (by simpa using hlen) hch'
          cases e with
          | false =>
            have hIH2 := IH.2 (by simp)
            constructor
            · intro hcond
              simp at hcond
            · intro _
              have hs : maskIndex (t :: t' :: ts'')
                  (startsMaskAux prev (false :: r :: rs)) =
                  maskIndex (t' :: ts'') (startsMaskAux false (r :: rs)) := by
                simp [startsMaskAux, maskIndex_cons]
              have he : maskIndex (t :: t' :: ts'')
                  (endsMaskAux (false :: r :: rs)) =
                  maskIndex (t' :: ts'') (endsMaskAux (r :: rs)) := by
                simp [endsMaskAux, maskIndex_cons]
              rw [hs, he]
              exact hIH2
          | true =>
            cases prev with
            | true =>
              constructor
              · intro _
                have hs : maskIndex (t :: t' :: ts'')
                    (startsMaskAux true (true :: r :: rs)) =
                    maskIndex (t' :: ts'') (startsMaskAux true (r :: rs)) := by
                  simp [startsMaskAux, maskIndex_cons]
                cases r with
                | false =>
                  have hIH2 := IH.2 (by simp)
                  refine ⟨t, maskIndex (t' :: ts'')
                    (endsMaskAux (false :: rs)), ?_, ?_, ?_⟩
                  · simp [endsMaskAux, maskIndex_cons]
                  · rw [hs]
                    exact hIH2
                  · intro x hx
                    simp at hx
                    subst hx
                    exact le_refl t
                | true =>
                  obtain ⟨e', E', heq, hf2, hhead⟩ := IH.1 (by simp)
                  refine ⟨e', E', ?_, ?_, ?_⟩
                  · have he : maskIndex (t :: t' :: ts'')
                        (endsMaskAux (true :: true :: rs)) =
                        maskIndex (t' :: ts'') (endsMaskAux (true :: rs)) := by
                      simp [endsMaskAux, maskIndex_cons]
                    rw [he]
                    exact heq
                  · rw [hs]
                    exact hf2
                  · intro x hx
                    simp at hx
                    subst hx
                    exact le_trans htt' (hhead t' (by simp))
              · intro hcond
                simp at hcond
            | false =>
              constructor
              · intro hcond
                simp at hcond
              · intro _
                have hs : maskIndex (t :: t' :: ts'')
                    (startsMaskAux false (true :: r :: rs)) =
                    t :: maskIndex (t' :: ts'') (startsMaskAux true (r :: rs)) := by
                  simp [startsMaskAux, maskIndex_cons]
                rw [hs]
                cases r with
                | false =>
                  have hIH2 := IH.2 (by simp)
                  have he : maskIndex (t :: t' :: ts'')
                      (endsMaskAux (true :: false :: rs)) =
                      t :: maskIndex (t' :: ts'') (endsMaskAux (false :: rs)) := by
                    simp [endsMaskAux, maskIndex_cons]
                  rw [he]
                  exact List.Forall₂.cons (le_refl t) hIH2
                | true =>
                  obtain ⟨e', E', heq, hf2, hhead⟩ := IH.1 (by simp)
                  have he : maskIndex (t :: t' :: ts'')
                      (endsMaskAux (true :: true :: rs)) =
                      maskIndex (t' :: ts'') (endsMaskAux (true :: rs)) := by
                    simp [endsMaskAux, maskIndex_cons]
                  rw [he, heq]
                  exact List.Forall₂.cons
                    (le_trans htt' (hhead t' (by simp))) hf2

theorem countRunsAux_all_false (l : List Bool) : ∀ prev : Bool,
    (∀ b ∈ l, b = false) → countRunsAux prev l = 0 := by
  induction l with
  | nil => intro prev _; rfl
  | cons b rest ih =>
    intro prev h
    have hb : b = false := h b (by simp)
    subst hb
    rw [countRunsAux]
    simp [ih false (fun x hx => h x (by simp [hx]))]

theorem maskIndex_startsMask_length' (index : List Int) (events : List Bool)
    (hlen : index.length = events.length) :
    (maskIndex index (eventStartsMask events)).length = countRuns events := by
  rw [eventStartsMask_eq]
  exact maskIndex_startsMask_length events index false hlen

theorem maskIndex_endsMask_length' (index : List Int) (events : List Bool)
    (hlen : index.length = events.length) :
    (maskIndex index (eventEndsMask events)).length = countRuns events := by
  rw [eventEndsMask_eq]
  have h := maskIndex_endsMask_length events index false hlen
  simpa [countRuns] using h

/-- C1: `get_anomaly_windows` returns exactly one window per maximal
contiguous run of `True` values in the event column of a prepared table
(index aligned with the event column); in particular the result is empty
when no flag is `True`, and runs touching the first or last row are
counted like any other. -/
theorem get_anomaly_windows_run_count (index : List Int) (events : List Bool)
    (margin_minutes : Int) (hlen : index.length = events.length) :
    (get_anomaly_windows index events margin_minutes).length =
      countRuns events ∧
    ((∀ b ∈ events, b = false) →
      get_anomaly_windows index events margin_minutes = []) := by
  have hs := maskIndex_startsMask_length' index events hlen
  have he := maskIndex_endsMask_length' index events hlen
  constructor
  · simp only [get_anomaly_windows]
    by_cases h0 : (maskIndex index (eventStartsMask events)).length = 0
    · rw [if_pos h0]
      simp only [List.length_nil]
      omega
    · rw [if_neg h0]
      rw [List.length_map, List.length_zip, hs, he]
      exact min_self _
  · intro hall
    have hz : countRuns events = 0 :=
      countRunsAux_all_false events false hall
    simp only [get_anomaly_windows]
    rw [if_pos (by omega)]

/-- Witness for C1 at a concrete prepared table. -/
theorem get_anomaly_windows_run_count_witness :
    (get_anomaly_windows [0, 1, 2, 3, 4] [false, true, true, false, true]
        1).length = countRuns [false, true, true, false, true] ∧
    ((∀ b ∈ [false, true, true, false, true], b = false) →
      get_anomaly_windows [0, 1, 2, 3, 4] [false, true, true, false, true]
        1 = []) :=
  get_anomaly_windows_run_count [0, 1, 2, 3, 4]
    [false, true, true, false, true] 1 (by decide)

theorem starts_ends_forall₂ (index : List Int) (events : List Bool)
    (hlen : index.length = events.length)
    (hsorted : List.Chain' (· ≤ ·) index) :
    List.Forall₂ (· ≤ ·) (maskIndex index (eventStartsMask events))
      (maskIndex index (eventEndsMask events)) := by
  rw [eventStartsMask_eq, eventEndsMask_eq]
  exact (starts_ends_pairing events index false hlen hsorted).2 (by simp)

theorem maskIndex_chain' (index : List Int) (mask : List Bool)
    (hsorted : List.Chain' (· ≤ ·) index) :
    List.Chain' (· ≤ ·) (maskIndex index mask) := by
  rw [List.chain'_iff_pairwise] at hsorted ⊢
  exact hsorted.sublist (maskIndex_sublist index mask)

/-- C6: the internal run-start and run-end time lists of
`get_anomaly_windows` have equal length; the i-th start is at most the
i-th end (so the `zip` pairing drops no run and every emitted window has
`anomaly_start ≤ anomaly_end`); and the emitted windows are in
chronological order of their anomaly starts. Stated for a prepared table:
index sorted and aligned with the event column. -/
theorem get_anomaly_windows_internal_pairing (index : List Int)
    (events : List Bool) (margin_minutes : Int)
    (hlen : index.length = events.length)
    (hsorted : List.Chain' (· ≤ ·) index) :
    (maskIndex index (eventStartsMask events)).length =
      (maskIndex index (eventEndsMask events)).length ∧
    List.Forall₂ (· ≤ ·) (maskIndex index (eventStartsMask events))
      (maskIndex index (eventEndsMask events)) ∧
    List.Chain' (· ≤ ·)
      ((get_anomaly_windows index events margin_minutes).map
        (fun w => w.2.2.1)) := by
  have hf2 := starts_ends_forall₂ index events hlen hsorted
  refine ⟨hf2.length_eq, hf2, ?_⟩
  simp only [get_anomaly_windows]
  by_cases h0 : (maskIndex index (eventStartsMask events)).length = 0
  · rw [if_pos h0]
    simp
  · rw [if_neg h0]
    rw [List.map_map]
    have hproj : ((fun w : Int × Int × Int × Int => w.2.2.1) ∘
        (fun p : Int × Int =>
          (max (listMin index) (p.1 - margin_minutes),
            min (listMax index) (p.2 + margin_minutes), p.1, p.2))) =
        Prod.fst := by
      funext p
      rfl
    rw [hproj]
    rw [List.map_fst_zip _ _ (le_of_eq hf2.length_eq)]
    exact maskIndex_chain' index (eventStartsMask events) hsorted

/-- Witness for C6 at a concrete prepared table. -/
theorem get_anomaly_windows_internal_pairing_witness :
    (maskIndex [0, 1, 2, 3, 4]
        (eventStartsMask [true, true, false, true, false])).length =
      (maskIndex [0, 1, 2, 3, 4]
        (eventEndsMask [true, true, false, true, false])).length ∧
    List.Forall₂ (· ≤ ·)
      (maskIndex [0, 1, 2, 3, 4]
        (eventStartsMask [true, true, false, true, false]))
      (maskIndex [0, 1, 2, 3, 4]
        (eventEndsMask [true, true, false, true, false])) ∧
    List.Chain' (· ≤ ·)
      ((get_anomaly_windows [0, 1, 2, 3, 4]
          [true, true, false, true, false] 2).map (fun w => w.2.2.1)) :=
  get_anomaly_windows_internal_pairing [0, 1, 2, 3, 4]
    [true, true, false, true, false] 2 (by decide)
    (by norm_num [List.chain'_cons, List.chain'_singleton])

/-- C2: every window produced by `get_anomaly_windows` on a prepared
table (sorted aligned index) with nonnegative margin satisfies
`window_start ≤ anomaly_start ≤ anomaly_end ≤ window_end`, with
`window_start` at least the table's minimum time and `window_end` at
most the table's maximum time. -/
theorem get_anomaly_windows_bounds (index : List Int) (events : List Bool)
    (margin_minutes : Int) (hlen : index.length = events.length)
    (hsorted : List.Chain' (· ≤ ·) index) (hm : 0 ≤ margin_minutes) :
    ∀ w ∈ get_anomaly_windows index events margin_minutes,
      w.1 ≤ w.2.2.1 ∧ w.2.2.1 ≤ w.2.2.2 ∧ w.2.2.2 ≤ w.2.1 ∧
      listMin index ≤ w.1 ∧ w.2.1 ≤ listMax index := by
  intro w hw
  simp only [get_anomaly_windows] at hw
  by_cases h0 : (maskIndex index (eventStartsMask events)).length = 0
  · rw [if_pos h0] at hw
    simp at hw
  · rw [if_neg h0] at hw
    obtain ⟨p, hp, rfl⟩ := List.mem_map.1 hw
    obtain ⟨hps, hpe⟩ := List.of_mem_zip hp
    dsimp only
    have hse : p.1 ≤ p.2 := by
      have hf2 := starts_ends_forall₂ index events hlen hsorted
      exact (List.forall₂_iff_zip.1 hf2).2 hp
    have hsmem : p.1 ∈ index :=
      (maskIndex_sublist index (eventStartsMask events)).subset hps
    have hemem : p.2 ∈ index :=
      (maskIndex_sublist index (eventEndsMask events)).subset hpe
    refine ⟨?_, hse, ?_, ?_, ?_⟩
    · exact max_le (listMin_le_of_mem hsmem) (by omega)
    · exact le_min (le_listMax_of_mem hemem) (by omega)
    · exact le_max_left _ _
    · exact min_le_left _ _

/-- Witness for C2 at a concrete prepared table and window. -/
theorem get_anomaly_windows_bounds_witness :
    ((10, 25, 10, 10) : Int × Int × Int × Int) ∈
      get_anomaly_windows [10, 20, 30] [true, false, true] 15 ∧
    ((10 : Int) ≤ 10 ∧ (10 : Int) ≤ 10 ∧ (10 : Int) ≤ 25 ∧
      listMin [10, 20, 30] ≤ 10 ∧ (25 : Int) ≤ listMax [10, 20, 30]) :=
  ⟨by decide,
    get_anomaly_windows_bounds [10, 20, 30] [true, false, true] 15
      (by decide) (by norm_num [List.chain'_cons, List.chain'_singleton])
      (by decide) (10, 25, 10, 10) (by decide)⟩

theorem keyLe_isTotal (k : Cell × Row → Cell) :
    IsTotal (Cell × Row) (keyLe k) :=
  ⟨fun a b => by
    rcases Bool.or_eq_true_iff.1 (cellLe_total (k a) (k b)) with h | h
    · exact Or.inl h
    · exact Or.inr h⟩

theorem keyLe_isTrans (k : Cell × Row → Cell) :
    IsTrans (Cell × Row) (keyLe k) :=
  ⟨fun a b c hab hbc => cellLe_trans (k a) (k b) (k c) hab hbc⟩

theorem lookupKey_isSome_iff_mem {β : Type} (l : List (String × β))
    (c : String) : (lookupKey l c).isSome = true ↔ c ∈ l.map Prod.fst := by
  induction l with
  | nil => simp [lookupKey]
  | cons p rest ih =>
    rw [lookupKey_cons]
    by_cases hpc : p.1 = c
    · simp [hpc]
    · rw [if_neg hpc, List.map_cons, List.mem_cons]
      simp only [ih]
      constructor
      · intro h
        exact Or.inr h
      · intro h
        rcases h with h | h
        · exact absurd h.symm hpc
        · exact h

theorem hasCol_iff_mem (f : Frame) (c : String) :
    f.hasCol c = true ↔ c ∈ f.colNames :=
  lookupKey_isSome_iff_mem f.header c

theorem hasCol_congr {f g : Frame} (h : f.colNames = g.colNames)
    (c : String) : f.hasCol c = g.hasCol c := by
  by_cases hf : f.hasCol c = true
  · rw [hf, (hasCol_iff_mem g c).2 (h ▸ (hasCol_iff_mem f c).1 hf)]
  · have hg : ¬g.hasCol c = true := fun hh =>
      hf ((hasCol_iff_mem f c).2 (h ▸ (hasCol_iff_mem g c).1 hh))
    rw [Bool.eq_false_iff.2 hf, Bool.eq_false_iff.2 hg]

theorem applyCol_colNames (f : Frame) (c : String) (g : Cell → Cell)
    (d : DType) : (f.applyCol c g d).colNames = f.colNames :=
  mapKey_keys f.header c (fun _ => d)

theorem coerceNumericCol_colNames (f : Frame) (c : String) :
    (f.coerceNumericCol c).colNames = f.colNames := by
  unfold Frame.colNames Frame.coerceNumericCol
  exact mapKey_keys f.header c (fun _ =>
    numericDtypeOf (f.rows.map (fun r => toNumericCell (rowGet r.2 c))))

theorem prepStep1_colNames (df : Frame) (tc : String) :
    (prepStep1 df tc).colNames = df.colNames := by
  unfold prepStep1
  by_cases h : df.hasCol tc = true
  · rw [if_pos h]
    exact applyCol_colNames df tc toDatetimeCell .datetime64
  · rw [if_neg h]

theorem prepStep2_colNames (ncols : List String) : ∀ df : Frame,
    (prepStep2 df ncols).colNames = df.colNames := by
  induction ncols with
  | nil => intro df; rfl
  | cons c rest ih =>
    intro df
    unfold prepStep2
    rw [List.foldl_cons]
    by_cases h : df.hasCol c = true
    · rw [if_pos h]
      have := ih (df.coerceNumericCol c)
      unfold prepStep2 at this
      rw [this, coerceNumericCol_colNames]
    · rw [if_neg h]
      have := ih df
      unfold prepStep2 at this
      rw [this]

theorem prepStep3_colNames (df : Frame) (ec : String) :
    (prepStep3 df ec).colNames = df.colNames := by
  unfold prepStep3
  by_cases h : df.hasCol ec = true
  · rw [if_pos h]
    by_cases h2 : df.dtypeOf? ec = some DType.boolT
    · rw [if_pos h2]
    · rw [if_neg h2]
      exact applyCol_colNames df ec _ DType.boolT
  · rw [if_neg h]

theorem dropna_ok_header {f f' : Frame} {subset : List String}
    (h : f.dropna subset = .ok f') : f'.header = f.header := by
  unfold Frame.dropna at h
  by_cases hm : (subset.filter (fun c => !f.hasCol c)).isEmpty = true
  · rw [if_pos hm] at h
    cases h
    rfl
  · rw [if_neg hm] at h
    cases h

theorem dropna_ok_rows {f f' : Frame} {subset : List String}
    (h : f.dropna subset = .ok f') :
    f'.rows = f.rows.filter (fun r =>
      subset.all (fun c => !(rowGet r.2 c).isNA)) := by
  unfold Frame.dropna at h
  by_cases hm : (subset.filter (fun c => !f.hasCol c)).isEmpty = true
  · rw [if_pos hm] at h
    cases h
    rfl
  · rw [if_neg hm] at h
    cases h

theorem dropna_ok_hasCol {f f' : Frame} {subset : List String}
    (h : f.dropna subset = .ok f') : ∀ c ∈ subset, f.hasCol c = true := by
  unfold Frame.dropna at h
  by_cases hm : (subset.filter (fun c => !f.hasCol c)).isEmpty = true
  · intro c hc
    rw [List.isEmpty_iff] at hm
    by_cases hcc : f.hasCol c = true
    · exact hcc
    · have : c ∈ subset.filter (fun c => !f.hasCol c) :=
        List.mem_filter.2 ⟨hc, by simp [hcc]⟩
      rw [hm] at this
      simp at this
  · rw [if_neg hm] at h
    cases h

theorem dropna_error_of_missing {f : Frame} {subset : List String} {c : String}
    (hc : c ∈ subset) (h : f.hasCol c = false) :
    ∃ e, f.dropna subset = .error e := by
  unfold Frame.dropna
  have hmem : c ∈ subset.filter (fun c => !f.hasCol c) :=
    List.mem_filter.2 ⟨hc, by simp [h]⟩
  have hne : (subset.filter (fun c => !f.hasCol c)).isEmpty = false := by
    rw [List.isEmpty_eq_false_iff_exists_mem]
    exact ⟨c, hmem⟩
  rw [if_neg (by simp [hne])]
  exact ⟨_, rfl⟩

theorem prepare_ok_decomp {df : Frame} {tc ec : String}
    {nc : Option (List String)} {f : Frame}
    (hok : prepare_time_series df tc ec nc = .ok f) :
    ∃ dfc, (prepStep3 (prepStep2 (prepStep1 df tc)
        (effectiveNumericCols df tc ec nc)) ec).dropna
        (tc :: effectiveNumericCols df tc ec nc) = .ok dfc ∧
      f = ((dfc.sortValues tc).resetIndex.setIndex tc).sortIndex := by
  unfold prepare_time_series at hok
  cases hdrop : (prepStep3 (prepStep2 (prepStep1 df tc)
      (effectiveNumericCols df tc ec nc)) ec).dropna
      (tc :: effectiveNumericCols df tc ec nc) with
  | error e =>
    rw [hdrop] at hok
    cases hok
  | ok dfc =>
    rw [hdrop] at hok
    cases hok
    exact ⟨dfc, rfl, rfl⟩

theorem prepare_ok_result_no_time_col {df : Frame} {tc ec : String}
    {nc : Option (List String)} {f : Frame} (hnd : df.colNames.Nodup)
    (hok : prepare_time_series df tc ec nc = .ok f) :
    f.hasCol tc = false := by
  obtain ⟨dfc, hdrop, hf⟩ := prepare_ok_decomp hok
  have hdfc : dfc.header = (prepStep3 (prepStep2 (prepStep1 df tc)
      (effectiveNumericCols df tc ec nc)) ec).header := dropna_ok_header hdrop
  have hnames : dfc.colNames = df.colNames := by
    unfold Frame.colNames
    rw [hdfc]
    have h3 := prepStep3_colNames (prepStep2 (prepStep1 df tc)
      (effectiveNumericCols df tc ec nc)) ec
    have h2 := prepStep2_colNames (effectiveNumericCols df tc ec nc)
      (prepStep1 df tc)
    have h1 := prepStep1_colNames df tc
    unfold Frame.colNames at h3 h2 h1
    rw [h3, h2, h1]
  subst hf
  have hnodupc : dfc.colNames.Nodup := hnames ▸ hnd
  show ((lookupKey (eraseKey dfc.header tc) tc).isSome) = false
  rw [lookupKey_eraseKey_self dfc.header tc hnodupc]
  rfl

/-- Amended C3: `prepare_time_series` is not idempotent. On any input
frame (with distinct column labels, as pandas CSV loading guarantees)
where it succeeds, applying it again to the returned table raises a
key-lookup error — the time column has been moved into the index and is
no longer a column, so the `dropna(subset=[time_col] + numeric_cols)`
step raises `KeyError` — whatever `numeric_cols` argument the second
call uses. -/
theorem prepare_time_series_not_idempotent (df : Frame) (tc ec : String)
    (nc nc' : Option (List String)) (f : Frame) (hnd : df.colNames.Nodup)
    (hok : prepare_time_series df tc ec nc = .ok f) :
    ∃ e, prepare_time_series f tc ec nc' = .error e := by
  have hno : f.hasCol tc = false := prepare_ok_result_no_time_col hnd hok
  have hno3 : (prepStep3 (prepStep2 (prepStep1 f tc)
      (effectiveNumericCols f tc ec nc')) ec).hasCol tc = false := by
    have h3 := prepStep3_colNames (prepStep2 (prepStep1 f tc)
      (effectiveNumericCols f tc ec nc')) ec
    have h2 := prepStep2_colNames (effectiveNumericCols f tc ec nc')
      (prepStep1 f tc)
    have h1 := prepStep1_colNames f tc
    rw [hasCol_congr (h3.trans (h2.trans h1)) tc]
    exact hno
  obtain ⟨e, he⟩ := dropna_error_of_missing (List.mem_cons_self tc _) hno3
  refine ⟨e, ?_⟩
  unfold prepare_time_series
  rw [he]

/-- C3 counterexample: `prepare_time_series` succeeds on
`exampleBasicFrame`, but applied to its own output it raises the
`KeyError` for the time column instead of returning the table
unchanged. -/
theorem prepare_time_series_second_apply_errors_cex :
    (prepare_time_series exampleBasicFrame "Time" "EVENT" none).map
        (fun f => prepare_time_series f "Time" "EVENT" none) =
      Except.ok (Except.error "KeyError: Time") := by
  rfl

/-- Witness for the amended C3 at a concrete input. -/
theorem prepare_time_series_not_idempotent_witness :
    exampleBasicFrame.colNames.Nodup ∧
    prepare_time_series exampleBasicFrame "Time" "EVENT" none =
      .ok exampleBasicPrepared ∧
    ∃ e, prepare_time_series exampleBasicPrepared "Time" "EVENT" none =
      .error e :=
  ⟨by decide, by rfl,
    prepare_time_series_not_idempotent exampleBasicFrame "Time" "EVENT"
      none none exampleBasicPrepared (by decide) (by rfl)⟩

/-- C4 counterexample: on `exampleDupFrame` (duplicate timestamps) the
returned time index is `[5, 5]` — not unique and not strictly
increasing. -/
theorem prepare_time_series_duplicate_index_cex :
    (prepare_time_series exampleDupFrame "Time" "EVENT" none).map
        (fun f => f.rows.map Prod.fst) =
      Except.ok [Cell.time 5, Cell.time 5] ∧
    ¬([Cell.time 5, Cell.time 5] : List Cell).Nodup := by
  constructor
  · rfl
  · decide

/-- Amended C4: the time index of any table returned by
`prepare_time_series` is sorted non-decreasingly; duplicate input
timestamps are preserved (see the counterexample), so it need not be
unique or strictly increasing. -/
theorem prepare_time_series_index_sorted (df : Frame) (tc ec : String)
    (nc : Option (List String)) (f : Frame)
    (hok : prepare_time_series df tc ec nc = .ok f) :
    List.Pairwise (fun a b => cellLe a b = true) (f.rows.map Prod.fst) := by
  obtain ⟨dfc, hdrop, hf⟩ := prepare_ok_decomp hok
  subst hf
  rw [List.pairwise_map]
  haveI := keyLe_isTotal Prod.fst
  haveI := keyLe_isTrans Prod.fst
  have hsorted : List.Pairwise (keyLe Prod.fst)
      (List.insertionSort (keyLe Prod.fst)
        ((dfc.sortValues tc).resetIndex.setIndex tc).rows) :=
    List.sorted_insertionSort (keyLe Prod.fst) _
  simp only [keyLe] at hsorted
  exact hsorted

/-- Witness for the amended C4 at a concrete input. -/
theorem prepare_time_series_index_sorted_witness :
    prepare_time_series exampleDupFrame "Time" "EVENT" none =
      .ok exampleDupPrepared ∧
    List.Pairwise (fun a b => cellLe a b = true)
      (exampleDupPrepared.rows.map Prod.fst) :=
  ⟨by rfl, prepare_time_series_index_sorted exampleDupFrame "Time"
    "EVENT" none exampleDupPrepared (by rfl)⟩

/-- C7 counterexample: the column `B` is numerically typed (`float32`)
and differs from the event column, yet the inference selects nothing —
only `float64`/`int64` dtypes are inspected. Observable through
`prepare_time_series`: the missing value in `B` survives the row drop,
which could not happen had `B` been selected. -/
theorem inferredNumericCols_float32_cex :
    inferredNumericCols (prepStep1 exampleFloat32Frame "Time") "EVENT" = [] ∧
    DType.isNumeric .float32 = true ∧
    ("B" : String) ≠ "EVENT" ∧
    (prepare_time_series exampleFloat32Frame "Time" "EVENT" none).map
      (fun f => f.colCells "B") = Except.ok [Cell.na] := by
  refine ⟨by rfl, by decide, by decide, by rfl⟩

/-- Amended C7: when `numeric_cols` is not supplied, the inference
selects exactly the columns whose stored dtype is `float64` or `int64`,
the event column excluded; numeric columns of any other dtype (such as
`float32`) are not selected. -/
theorem inferredNumericCols_mem (f : Frame) (ec : String)
    (hnd : f.colNames.Nodup) (c : String) :
    c ∈ inferredNumericCols f ec ↔
      c ≠ ec ∧ ∃ d, (c, d) ∈ f.header ∧
        (d = DType.float64 ∨ d = DType.int64) := by
  have hmemn : ∀ x, x ∈ (f.header.filter
      (fun p => p.2 == DType.float64 || p.2 == DType.int64)).map Prod.fst ↔
      ∃ d, (x, d) ∈ f.header ∧ (d = DType.float64 ∨ d = DType.int64) := by
    intro x
    simp only [List.mem_map, List.mem_filter, Prod.exists]
    constructor
    · rintro ⟨a, b, ⟨hmem, hpred⟩, rfl⟩
      refine ⟨b, hmem, ?_⟩
      simpa using hpred
    · rintro ⟨d, hmem, hd⟩
      exact ⟨x, d, ⟨hmem, by simpa using hd⟩, rfl⟩
  have hnodupn : ((f.header.filter
      (fun p => p.2 == DType.float64 || p.2 == DType.int64)).map
        Prod.fst).Nodup :=
    hnd.sublist ((List.filter_sublist f.header).map Prod.fst)
  unfold inferredNumericCols
  by_cases hec : ec ∈ (f.header.filter
      (fun p => p.2 == DType.float64 || p.2 == DType.int64)).map Prod.fst
  · rw [if_pos (by simpa using hec), hnodupn.mem_erase_iff, hmemn c]
  · rw [if_neg (by simpa using hec)]
    rw [hmemn c]
    constructor
    · intro h
      refine ⟨?_, h⟩
      intro hce
      exact hec (hce ▸ (hmemn ec).2 (hce ▸ h))
    · intro h
      exact h.2

/-- Witness for the amended C7 at a concrete frame and column. -/
theorem inferredNumericCols_mem_witness :
    exampleInferFrame.colNames.Nodup ∧
    ("A" ∈ inferredNumericCols exampleInferFrame "EVENT" ↔
      ("A" : String) ≠ "EVENT" ∧ ∃ d, ("A", d) ∈ exampleInferFrame.header ∧
        (d = DType.float64 ∨ d = DType.int64)) :=
  ⟨by decide, inferredNumericCols_mem exampleInferFrame "EVENT"
    (by decide) "A"⟩

theorem rowHas_mapKey (row : Row) (c c' : String) (g : Cell → Cell) :
    rowHas (mapKey row c g) c' = rowHas row c' := by
  unfold rowHas
  by_cases hcc : c' = c
  · subst hcc
    rw [lookupKey_mapKey_eq]
    cases lookupKey row c' <;> rfl
  · rw [lookupKey_mapKey_ne row c c' g hcc]

theorem rowGet_mapKey_ne (row : Row) (c c' : String) (g : Cell → Cell)
    (h : c' ≠ c) : rowGet (mapKey row c g) c' = rowGet row c' := by
  unfold rowGet
  rw [lookupKey_mapKey_ne row c c' g h]

theorem rowGet_eraseKey_ne (row : Row) (c c' : String) (h : c' ≠ c) :
    rowGet (eraseKey row c) c' = rowGet row c' := by
  unfold rowGet
  rw [lookupKey_eraseKey_ne row c c' h]

theorem eraseKey_sublist {β : Type} (l : List (String × β)) (c : String) :
    (eraseKey l c).Sublist l := by
  induction l with
  | nil => exact List.Sublist.refl []
  | cons p rest ih =>
    rw [eraseKey_cons]
    by_cases hpc : p.1 = c
    · rw [if_pos hpc]
      exact List.sublist_cons_self p rest
    · rw [if_neg hpc]
      exact List.Sublist.cons₂ p ih

/-- Rows of the time-parse step: presence of a column label is
unchanged. -/
theorem prepStep1_rowHas (df : Frame) (tc ec : String)
    (h : ∀ r ∈ df.rows, rowHas r.2 ec = true) :
    ∀ r ∈ (prepStep1 df tc).rows, rowHas r.2 ec = true := by
  unfold prepStep1
  by_cases hc : df.hasCol tc = true
  · rw [if_pos hc]
    intro r hr
    obtain ⟨r0, hr0, rfl⟩ := List.mem_map.1 hr
    show rowHas (mapKey r0.2 tc toDatetimeCell) ec = true
    rw [rowHas_mapKey]
    exact h r0 hr0
  · rw [if_neg hc]
    exact h

theorem coerceNumericCol_rowHas (df : Frame) (c ec : String)
    (h : ∀ r ∈ df.rows, rowHas r.2 ec = true) :
    ∀ r ∈ (df.coerceNumericCol c).rows, rowHas r.2 ec = true := by
  intro r hr
  obtain ⟨r0, hr0, rfl⟩ := List.mem_map.1 hr
  show rowHas (mapKey r0.2 c toNumericCell) ec = true
  rw [rowHas_mapKey]
  exact h r0 hr0

theorem prepStep2_rowHas (ncols : List String) : ∀ (df : Frame) (ec : String),
    (∀ r ∈ df.rows, rowHas r.2 ec = true) →
    ∀ r ∈ (prepStep2 df ncols).rows, rowHas r.2 ec = true := by
  induction ncols with
  | nil => intro df ec h; exact h
  | cons c rest ih =>
    intro df ec h
    unfold prepStep2
    rw [List.foldl_cons]
    by_cases hc : df.hasCol c = true
    · rw [if_pos hc]
      exact ih (df.coerceNumericCol c) ec (coerceNumericCol_rowHas df c ec h)
    · rw [if_neg hc]
      exact ih df ec h

theorem numericDtypeOf_ne_bool (cells : List Cell) :
    numericDtypeOf cells ≠ DType.boolT := by
  unfold numericDtypeOf
  by_cases h : cells.all
      (fun c => match c with | .num q => q.den == 1 | _ => false) = true
  · rw [if_pos h]
    intro hh
    cases hh
  · rw [if_neg h]
    intro hh
    cases hh

/-- If after the time parse the event column still has boolean dtype,
the parse did not touch it: same dtype and same event cells as the
input. -/
theorem prepStep1_event_preserved (df : Frame) (tc ec : String)
    (h : (prepStep1 df tc).dtypeOf? ec = some DType.boolT) :
    df.dtypeOf? ec = some DType.boolT ∧
    (prepStep1 df tc).rows.map (fun r => rowGet r.2 ec) =
      df.rows.map (fun r => rowGet r.2 ec) := by
  unfold prepStep1 at h ⊢
  by_cases hc : df.hasCol tc = true
  · rw [if_pos hc] at h ⊢
    by_cases hec : ec = tc
    · subst hec
      exfalso
      unfold Frame.applyCol Frame.dtypeOf? at h
      rw [lookupKey_mapKey_eq] at h
      unfold Frame.hasCol at hc
      cases hl : lookupKey df.header ec with
      | none => rw [hl] at hc; cases hc
      | some d => rw [hl] at h; cases h
    · constructor
      · unfold Frame.applyCol Frame.dtypeOf? at h
        rw [lookupKey_mapKey_ne _ _ _ _ hec] at h
        exact h
      · unfold Frame.applyCol
        rw [List.map_map]
        apply List.map_congr_left
        intro r _
        show rowGet (mapKey r.2 tc toDatetimeCell) ec = rowGet r.2 ec
        rw [rowGet_mapKey_ne _ _ _ _ hec]
  · rw [if_neg hc] at h ⊢
    exact ⟨h, rfl⟩

theorem coerceNumericCol_event_preserved (df : Frame) (c ec : String)
    (h : (df.coerceNumericCol c).dtypeOf? ec = some DType.boolT) :
    df.dtypeOf? ec = some DType.boolT ∧
    (df.coerceNumericCol c).rows.map (fun r => rowGet r.2 ec) =
      df.rows.map (fun r => rowGet r.2 ec) := by
  by_cases hec : ec = c
  · subst hec
    exfalso
    unfold Frame.coerceNumericCol Frame.dtypeOf? at h
    rw [lookupKey_mapKey_eq] at h
    cases hl : lookupKey df.header ec with
    | none => rw [hl] at h; cases h
    | some d =>
      rw [hl] at h
      exact numericDtypeOf_ne_bool _ (by injection h)
  · constructor
    · unfold Frame.coerceNumericCol Frame.dtypeOf? at h
      rw [lookupKey_mapKey_ne _ _ _ _ hec] at h
      exact h
    · unfold Frame.coerceNumericCol
      rw [List.map_map]
      apply List.map_congr_left
      intro r _
      show rowGet (mapKey r.2 c toNumericCell) ec = rowGet r.2 ec
      rw [rowGet_mapKey_ne _ _ _ _ hec]

theorem prepStep2_event_preserved (ncols : List String) : ∀ (df : Frame)
    (ec : String), (prepStep2 df ncols).dtypeOf? ec = some DType.boolT →
    df.dtypeOf? ec = some DType.boolT ∧
    (prepStep2 df ncols).rows.map (fun r => rowGet r.2 ec) =
      df.rows.map (fun r => rowGet r.2 ec) := by
  induction ncols with
  | nil => intro df ec h; exact ⟨h, rfl⟩
  | cons c rest ih =>
    intro df ec h
    unfold prepStep2 at h ⊢
    rw [List.foldl_cons] at h ⊢
    by_cases hc : df.hasCol c = true
    · rw [if_pos hc] at h ⊢
      obtain ⟨hd, hcells⟩ := ih (df.coerceNumericCol c) ec h
      obtain ⟨hd0, hcells0⟩ := coerceNumericCol_event_preserved df c ec hd
      exact ⟨hd0, hcells.trans hcells0⟩
    · rw [if_neg hc] at h ⊢
      exact ih df ec h

theorem prepStep3_event_cells (df2 : Frame) (ec : String)
    (hpres : ∀ r ∈ df2.rows, rowHas r.2 ec = true)
    (hwf : df2.dtypeOf? ec = some DType.boolT →
      ∀ r ∈ df2.rows, (rowGet r.2 ec).isBool = true)
    (hc : df2.hasCol ec = true) :
    ∀ r ∈ (prepStep3 df2 ec).rows, (rowGet r.2 ec).isBool = true := by
  intro r hr
  unfold prepStep3 at hr
  rw [if_pos hc] at hr
  by_cases hd : df2.dtypeOf? ec = some DType.boolT
  · rw [if_pos hd] at hr
    exact hwf hd r hr
  · rw [if_neg hd] at hr
    obtain ⟨r0, hr0, rfl⟩ := List.mem_map.1 hr
    show (rowGet (mapKey r0.2 ec
      (eventToBool ((df2.dtypeOf? ec).getD DType.objectT))) ec).isBool = true
    unfold rowGet
    rw [lookupKey_mapKey_eq]
    have hp := hpres r0 hr0
    unfold rowHas at hp
    cases hl : lookupKey r0.2 ec with
    | none => rw [hl] at hp; cases hp
    | some v => rfl

theorem resetIndex_rows_snd (Y : Frame) :
    (Y.resetIndex).rows.map Prod.snd = Y.rows.map Prod.snd := by
  show ((Y.rows.map Prod.snd).enum.map
    (fun p => (Cell.num (p.1 : Rat), p.2))).map Prod.snd = Y.rows.map Prod.snd
  rw [List.map_map]
  have h : (Prod.snd ∘ fun p : Nat × Row => (Cell.num (p.1 : Rat), p.2)) =
      Prod.snd := rfl
  rw [h, List.enum_map_snd]

/-- Every row of the prepared table arises from a surviving row of the
frame after the event step: index = its time cell, cells = the row
without the time label, and no missing marker in the time or selected
numeric columns. -/
theorem prepare_ok_rows_chars {df : Frame} {tc ec : String}
    {nc : Option (List String)} {f : Frame}
    (hok : prepare_time_series df tc ec nc = .ok f) :
    ∀ r ∈ f.rows, ∃ row0 : Row,
      (∃ rc ∈ (prepStep3 (prepStep2 (prepStep1 df tc)
        (effectiveNumericCols df tc ec nc)) ec).rows, row0 = rc.2) ∧
      (∀ c ∈ tc :: effectiveNumericCols df tc ec nc,
        (rowGet row0 c).isNA = false) ∧
      r = (rowGet row0 tc, eraseKey row0 tc) := by
  obtain ⟨dfc, hdrop, hf⟩ := prepare_ok_decomp hok
  subst hf
  intro r hr
  have hr1 : r ∈ ((dfc.sortValues tc).resetIndex.setIndex tc).rows :=
    (List.perm_insertionSort (keyLe Prod.fst) _).mem_iff.1 hr
  have hr1' : r ∈ ((dfc.sortValues tc).resetIndex).rows.map
      (fun r => (rowGet r.2 tc, eraseKey r.2 tc)) := hr1
  obtain ⟨w, hw, hwr⟩ := List.mem_map.1 hr1'
  have hw2 : w.2 ∈ ((dfc.sortValues tc).resetIndex).rows.map Prod.snd :=
    List.mem_map_of_mem Prod.snd hw
  rw [resetIndex_rows_snd] at hw2
  have hperm : (dfc.sortValues tc).rows.map Prod.snd =
      (List.insertionSort (keyLe (fun r => rowGet r.2 tc)) dfc.rows).map
        Prod.snd := rfl
  rw [hperm] at hw2
  have hw3 : w.2 ∈ dfc.rows.map Prod.snd :=
    ((List.perm_insertionSort
      (keyLe (fun r => rowGet r.2 tc)) dfc.rows).map Prod.snd).mem_iff.1 hw2
  obtain ⟨rc, hrc, hwrc⟩ := List.mem_map.1 hw3
  rw [dropna_ok_rows hdrop] at hrc
  obtain ⟨hrc3, hpred⟩ := List.mem_filter.1 hrc
  refine ⟨w.2, ⟨rc, hrc3, hwrc.symm⟩, ?_, hwr.symm⟩
  intro c hc
  have hall := (List.all_eq_true.1 hpred) c hc
  rw [hwrc] at hall
  simp only [Bool.not_eq_true'] at hall
  exact hall

theorem prepare_ok_index_pairwise {df : Frame} {tc ec : String}
    {nc : Option (List String)} {f : Frame}
    (hok : prepare_time_series df tc ec nc = .ok f) :
    List.Pairwise (fun a b => cellLe a b = true) (f.rows.map Prod.fst) := by
  obtain ⟨dfc, hdrop, hf⟩ := prepare_ok_decomp hok
  subst hf
  rw [List.pairwise_map]
  haveI := keyLe_isTotal Prod.fst
  haveI := keyLe_isTrans Prod.fst
  have hsorted : List.Pairwise (keyLe Prod.fst)
      (List.insertionSort (keyLe Prod.fst)
        ((dfc.sortValues tc).resetIndex.setIndex tc).rows) :=
    List.sorted_insertionSort (keyLe Prod.fst) _
  simp only [keyLe] at hsorted
  exact hsorted

theorem prepare_ok_hasCol_transfer {df : Frame} {tc ec : String}
    {nc : Option (List String)} {f : Frame}
    (hok : prepare_time_series df tc ec nc = .ok f) (c : String)
    (hc : f.hasCol c = true) :
    (prepStep3 (prepStep2 (prepStep1 df tc)
      (effectiveNumericCols df tc ec nc)) ec).hasCol c = true := by
  obtain ⟨dfc, hdrop, hf⟩ := prepare_ok_decomp hok
  subst hf
  have hmem : c ∈ (eraseKey dfc.header tc).map Prod.fst :=
    (hasCol_iff_mem _ c).1 hc
  have hsub : List.Sublist ((eraseKey dfc.header tc).map Prod.fst)
      (dfc.header.map Prod.fst) :=
    (eraseKey_sublist dfc.header tc).map Prod.fst
  have hmem2 : c ∈ dfc.colNames := hsub.subset hmem
  have hmem3 : c ∈ (prepStep3 (prepStep2 (prepStep1 df tc)
      (effectiveNumericCols df tc ec nc)) ec).colNames := by
    have hh := dropna_ok_header hdrop
    unfold Frame.colNames at hmem2 ⊢
    rw [hh] at hmem2
    exact hmem2
  exact (hasCol_iff_mem _ c).2 hmem3

/-- C5: on any input frame with distinct column labels (and, when the
event column is already boolean-typed, genuinely boolean cells and every
row carrying the label — the representation invariants of a real pandas
frame), a successful `prepare_time_series` returns a table with: no
missing value in its time index; no missing value in any selected
numeric column; every event flag a boolean; and a time index sorted
non-decreasingly. -/
theorem prepare_time_series_output_clean (df : Frame) (tc ec : String)
    (nc : Option (List String)) (f : Frame)
    (hnd : df.colNames.Nodup)
    (hev : df.hasCol ec = true → ∀ r ∈ df.rows,
      rowHas r.2 ec = true ∧
      (df.dtypeOf? ec = some DType.boolT → (rowGet r.2 ec).isBool = true))
    (hok : prepare_time_series df tc ec nc = .ok f) :
    (∀ r ∈ f.rows, r.1.isNA = false) ∧
    (∀ c ∈ effectiveNumericCols df tc ec nc, ∀ cell ∈ f.colCells c,
      cell.isNA = false) ∧
    (∀ cell ∈ f.colCells ec, cell.isBool = true) ∧
    List.Pairwise (fun a b => cellLe a b = true) (f.rows.map Prod.fst) := by
  have hntc : f.hasCol tc = false := prepare_ok_result_no_time_col hnd hok
  have hchars := prepare_ok_rows_chars hok
  refine ⟨?_, ?_, ?_, prepare_ok_index_pairwise hok⟩
  · intro r hr
    obtain ⟨row0, _, hnona, hre⟩ := hchars r hr
    rw [hre]
    exact hnona tc (List.mem_cons_self tc _)
  · intro c hcmem cell hcell
    unfold Frame.colCells at hcell
    by_cases hfc : f.hasCol c = true
    · rw [if_pos hfc] at hcell
      obtain ⟨r, hr, rfl⟩ := List.mem_map.1 hcell
      obtain ⟨row0, _, hnona, hre⟩ := hchars r hr
      have hctc : c ≠ tc := fun heq => by rw [heq, hntc] at hfc; cases hfc
      rw [hre]
      show (rowGet (eraseKey row0 tc) c).isNA = false
      rw [rowGet_eraseKey_ne row0 tc c hctc]
      exact hnona c (List.mem_cons_of_mem tc hcmem)
    · rw [if_neg hfc] at hcell
      cases hcell
  · intro cell hcell
    unfold Frame.colCells at hcell
    by_cases hfe : f.hasCol ec = true
    · rw [if_pos hfe] at hcell
      obtain ⟨r, hr, rfl⟩ := List.mem_map.1 hcell
      obtain ⟨row0, ⟨rc, hrc3, hrow0⟩, hnona, hre⟩ := hchars r hr
      have hetc : ec ≠ tc := fun heq => by rw [heq, hntc] at hfe; cases hfe
      rw [hre]
      show (rowGet (eraseKey row0 tc) ec).isBool = true
      rw [rowGet_eraseKey_ne row0 tc ec hetc]
      have hd3 := prepare_ok_hasCol_transfer hok ec hfe
      have hd2 : (prepStep2 (prepStep1 df tc)
          (effectiveNumericCols df tc ec nc)).hasCol ec = true := by
        rw [← hasCol_congr (prepStep3_colNames _ ec) ec]
        exact hd3
      have hddf : df.hasCol ec = true := by
        rw [← hasCol_congr (prepStep1_colNames df tc) ec,
          ← hasCol_congr (prepStep2_colNames
            (effectiveNumericCols df tc ec nc) (prepStep1 df tc)) ec]
        exact hd2
      have hpres2 : ∀ r2 ∈ (prepStep2 (prepStep1 df tc)
          (effectiveNumericCols df tc ec nc)).rows, rowHas r2.2 ec = true :=
        prepStep2_rowHas _ _ ec
          (prepStep1_rowHas df tc ec (fun r2 hr2 => (hev hddf r2 hr2).1))
      have hwf2 : (prepStep2 (prepStep1 df tc)
          (effectiveNumericCols df tc ec nc)).dtypeOf? ec =
            some DType.boolT →
          ∀ r2 ∈ (prepStep2 (prepStep1 df tc)
            (effectiveNumericCols df tc ec nc)).rows,
            (rowGet r2.2 ec).isBool = true := by
        intro hdty r2 hr2
        obtain ⟨hd1, hcells1⟩ := prepStep2_event_preserved _ _ ec hdty
        obtain ⟨hd0, hcells0⟩ := prepStep1_event_preserved df tc ec hd1
        have hmem : rowGet r2.2 ec ∈ (prepStep2 (prepStep1 df tc)
            (effectiveNumericCols df tc ec nc)).rows.map
              (fun r3 => rowGet r3.2 ec) :=
          List.mem_map_of_mem _ hr2
        rw [hcells1, hcells0] at hmem
        obtain ⟨r0, hr0, heq0⟩ := List.mem_map.1 hmem
        rw [← heq0]
        exact (hev hddf r0 hr0).2 hd0
      have hbools := prepStep3_event_cells _ ec hpres2 hwf2 hd2
      rw [hrow0]
      exact hbools rc hrc3
    · rw [if_neg hfe] at hcell
      cases hcell

/-- Witness for C5 at a concrete input frame. -/
theorem prepare_time_series_output_clean_witness :
    exampleEventFrame.colNames.Nodup ∧
    prepare_time_series exampleEventFrame "Time" "EVENT" none =
      .ok exampleEventPrepared ∧
    ((∀ r ∈ exampleEventPrepared.rows, r.1.isNA = false) ∧
      (∀ c ∈ effectiveNumericCols exampleEventFrame "Time" "EVENT" none,
        ∀ cell ∈ exampleEventPrepared.colCells c, cell.isNA = false) ∧
      (∀ cell ∈ exampleEventPrepared.colCells "EVENT", cell.isBool = true) ∧
      List.Pairwise (fun a b => cellLe a b = true)
        (exampleEventPrepared.rows.map Prod.fst)) :=
  ⟨by decide, by rfl,
    prepare_time_series_output_clean exampleEventFrame "Time" "EVENT" none
      exampleEventPrepared (by decide) (by decide) (by rfl)⟩

/-- C8: `load_gecco2018_csv` fails with the not-found error naming the
resolved path exactly when no file exists at that path (and succeeds by
reading the file otherwise — no retry, no recovery); an omitted path
resolves to the fixed default file under the raw-data directory. -/
theorem load_gecco2018_csv_not_found (exists_fs : String → Bool)
    (read_csv : String → Frame) (path : Option String) :
    ((∃ e, load_gecco2018_csv exists_fs read_csv path = .error e) ↔
      exists_fs (resolveGeccoPath path) = false) ∧
    (exists_fs (resolveGeccoPath path) = false →
      load_gecco2018_csv exists_fs read_csv path =
        .error (geccoNotFoundMsg (resolveGeccoPath path))) ∧
    (exists_fs (resolveGeccoPath path) = true →
      load_gecco2018_csv exists_fs read_csv path =
        .ok (read_csv (resolveGeccoPath path))) ∧
    geccoNotFoundMsg (resolveGeccoPath path) =
      "GECCO2018 CSV not found at " ++ resolveGeccoPath path ++
        ". Copy it into data/raw/" ∧
    resolveGeccoPath none = RAW_DATA_DIR ++ "/1_gecco2018_water_quality.csv" := by
  unfold load_gecco2018_csv
  by_cases h : exists_fs (resolveGeccoPath path) = true
  · rw [if_pos h]
    refine ⟨?_, ?_, ?_, rfl, rfl⟩
    · constructor
      · rintro ⟨e, he⟩
        cases he
      · intro hf
        rw [h] at hf
        cases hf
    · intro hf
      rw [h] at hf
      cases hf
    · intro _
      rfl
  · rw [if_neg h]
    have hf : exists_fs (resolveGeccoPath path) = false :=
      Bool.eq_false_iff.2 h
    refine ⟨?_, ?_, ?_, rfl, rfl⟩
    · exact ⟨fun _ => hf, fun _ => ⟨_, rfl⟩⟩
    · intro _
      rfl
    · intro ht
      rw [ht] at hf
      cases hf

/-- Witness for C8 on a concrete (empty) filesystem and the default
path. -/
theorem load_gecco2018_csv_not_found_witness :
    ((∃ e, load_gecco2018_csv (fun _ => false) (fun _ => exampleBasicFrame)
        none = .error e) ↔
      (fun _ : String => false) (resolveGeccoPath none) = false) ∧
    ((fun _ : String => false) (resolveGeccoPath none) = false →
      load_gecco2018_csv (fun _ => false) (fun _ => exampleBasicFrame)
        none = .error (geccoNotFoundMsg (resolveGeccoPath none))) ∧
    ((fun _ : String => false) (resolveGeccoPath none) = true →
      load_gecco2018_csv (fun _ => false) (fun _ => exampleBasicFrame)
        none = .ok ((fun _ => exampleBasicFrame) (resolveGeccoPath none))) ∧
    geccoNotFoundMsg (resolveGeccoPath none) =
      "GECCO2018 CSV not found at " ++ resolveGeccoPath none ++
        ". Copy it into data/raw/" ∧
    resolveGeccoPath none = RAW_DATA_DIR ++ "/1_gecco2018_water_quality.csv" :=
  load_gecco2018_csv_not_found (fun _ => false)
    (fun _ => exampleBasicFrame) none

/-- C9: whenever the inclusive `[start_time, end_time]` selection over
the table is empty, `plot_anomaly_zoom` prints the warning and returns
with no figure created, no file written (even when `save_path` is
given) and nothing shown. -/
theorem plot_anomaly_zoom_empty_selection (df : Frame)
    (start_time end_time : Int) (save_path : Option String)
    (showFig : Bool)
    (hempty : (df.rows.filter
      (fun r => cellInTimeRange r.1 start_time end_time)).length = 0) :
    plot_anomaly_zoom df start_time end_time save_path showFig =
      { warned := true, figureCreated := false, savedFiles := [],
        shown := false } := by
  unfold plot_anomaly_zoom
  rw [if_pos hempty]

/-- Witness for C9: an empty window over a concrete prepared table,
with a save path supplied. -/
theorem plot_anomaly_zoom_empty_selection_witness :
    (exampleEventPrepared.rows.filter
      (fun r => cellInTimeRange r.1 10 20)).length = 0 ∧
    plot_anomaly_zoom exampleEventPrepared 10 20 (some "figures/zoom.png")
        true =
      { warned := true, figureCreated := false, savedFiles := [],
        shown := false } :=
  ⟨by decide, plot_anomaly_zoom_empty_selection exampleEventPrepared 10 20
    (some "figures/zoom.png") true (by decide)⟩

/-- C10: rows the native LOF flags `-1` receive a strictly higher
`lof_baseline` score than rows it flags `+1` — the labels are
sign-inverted, so larger means more anomalous. -/
theorem lof_baseline_orientation (fit_predict : List (List Rat) → List Int)
    (X : List (List Rat)) (i j : Nat)
    (hi : (fit_predict X)[i]? = some (-1))
    (hj : (fit_predict X)[j]? = some 1) :
    (lof_baseline fit_predict X)[i]? = some (1 : Rat) ∧
    (lof_baseline fit_predict X)[j]? = some ((-1 : Rat)) ∧
    ((-1 : Rat) < 1) := by
  refine ⟨?_, ?_, by norm_num⟩
  · unfold lof_baseline
    rw [List.getElem?_map, List.getElem?_map, hi]
    rfl
  · unfold lof_baseline
    rw [List.getElem?_map, List.getElem?_map, hj]
    rfl

/-- Witness for C10 at a concrete labelling. -/
theorem lof_baseline_orientation_witness :
    ((fun _ : List (List Rat) => [(1 : Int), -1]) [[0]])[1]? = some (-1) ∧
    ((fun _ : List (List Rat) => [(1 : Int), -1]) [[0]])[0]? = some 1 ∧
    ((lof_baseline (fun _ => [1, -1]) [[0]])[1]? = some (1 : Rat) ∧
      (lof_baseline (fun _ => [1, -1]) [[0]])[0]? = some ((-1 : Rat)) ∧
      ((-1 : Rat) < 1)) :=
  ⟨by decide, by decide,
    lof_baseline_orientation (fun _ => [1, -1]) [[0]] 1 0
      (by decide) (by decide)⟩
